import Mathlib

/-!
# Verification of the data-analyser column-profiling engine

Shallow embedding of `src/analysis.py` (pandas-based table profiler).
Modelling conventions:

* A cell is missing (`NaN`), a numeric value, or a non-numeric text value.
  Numeric cells are the cells `pd.to_numeric` coerces successfully; text
  cells are the ones it maps to `NaN`.  Machine floats are modelled as
  exact rationals (`ℚ`); the claims under study do not depend on binary
  rounding of doubles.
* `pd.to_datetime`-based date detection (`_is_date_column`) and date
  range extraction are external library behaviour; they are abstracted
  as an oracle parameter, exactly as the classifier consumes them.
* Python `round` (banker's rounding) is modelled exactly on `ℚ` and on
  `ℝ`.
-/

namespace DataAnalyser

/-- A single cell of a column: missing (`NaN`), numeric, or text that does
not coerce to a number. -/
inductive Cell where
  | missing : Cell
  | num : ℚ → Cell
  | text : String → Cell
deriving DecidableEq, Repr

/-- Embedding of `pd.to_numeric(·, errors='coerce')` on one cell: numeric cells keep
their value, missing and non-numeric text become `NaN` (`none`). -/
def toNumeric : Cell → Option ℚ
  | Cell.num q => some q
  | _ => none

/-- Embedding of `series.dropna()`: the non-missing cells, in order. -/
def cleanOf (cells : List Cell) : List Cell :=
  cells.filter fun c => match c with
    | Cell.missing => false
    | _ => true

/-- Embedding of `series.isna().sum()`: number of missing cells. -/
def missingOf (cells : List Cell) : ℕ :=
  (cells.filter fun c => match c with
    | Cell.missing => true
    | _ => false).length

/-- Embedding of `series.nunique()`: number of distinct non-missing values. -/
def uniqueOf (cells : List Cell) : ℕ := (cleanOf cells).dedup.length

/-- Embedding of `pd.to_numeric(series, errors='coerce').dropna()`: the numeric values
of a column, in original order. -/
def numericValues (cells : List Cell) : List ℚ := cells.filterMap toNumeric

/-- Python `round(q)` (round-half-to-even) on an exact rational. -/
def pyRound (q : ℚ) : ℤ :=
  let f := ⌊q⌋
  let r := q - f
  if r < 1/2 then f
  else if 1/2 < r then f + 1
  else if f % 2 = 0 then f else f + 1

/-- Python `round(q, 1)` on an exact rational. -/
def round1 (q : ℚ) : ℚ := (pyRound (q * 10) : ℚ) / 10

/-- Substring test on character lists (Python's `sub in s`). -/
def containsSub (hay need : List Char) : Bool :=
  match hay with
  | [] => need.isEmpty
  | _ :: t => need.isPrefixOf hay || containsSub t need

/-- The identifier hint tokens of `_is_sequential_id`. -/
def idHints : List String :=
  ["_id", "id_", "key", "index", "idx", "code", "_no", "_num",
   "serial", "pk", "fk", "identifier"]

/-- Embedding of `name_lower == 'id' or any(h in name_lower for h in id_hints)`. -/
def nameHasIdHint (colName : String) : Bool :=
  let nl := colName.toLower
  decide (nl = "id") || idHints.any fun h => containsSub nl.toList h.toList

/-- Embedding of `np.diff(sorted_vals)`: successive differences. -/
def diffsOf (l : List ℚ) : List ℚ := (l.zip l.tail).map fun p => p.2 - p.1

/-- Embedding of `pd.Series(diffs).mode().iloc[0]`: the smallest among the values of
maximal multiplicity (pandas `mode` sorts ascending), `0` on `[]`. -/
def modeSmallest (l : List ℚ) : ℚ :=
  let maxCnt := (l.map fun v => l.count v).foldr max 0
  ((l.filter fun v => decide (l.count v = maxCnt)).mergeSort fun a b =>
    decide (a ≤ b)).headD 0

/-- Embedding of `np.diff(numeric_clean.sort_values().values)` — the local `diffs` of
`_is_sequential_id`. -/
def sortedDiffs (nv : List ℚ) : List ℚ :=
  diffsOf (nv.mergeSort fun a b => decide (a ≤ b))

/-- The local `sequential_pct` of `_is_sequential_id`: the fraction of
successive sorted differences equal to the most common difference. -/
def stepPct (nv : List ℚ) : ℚ :=
  ((sortedDiffs nv).countP fun d => decide (d = modeSmallest (sortedDiffs nv))) /
    (sortedDiffs nv).length

/-- Embedding of `_is_sequential_id` from `src/analysis.py` (lines 71-110).
`numericClean` is the column's numeric values in original order,
`uniqFrac` the `unique / total_rows` ratio, `uniq` the distinct count. -/
def is_sequential_id (numericClean : List ℚ) (colName : String)
    (uniqFrac : ℚ) (uniq : ℕ) : Bool :=
  if uniqFrac < 19/20 ∨ uniq ≤ 100 then false
  else if (numericClean.take 200).all fun v => decide (v.den = 1) then
    if nameHasIdHint colName then true
    else if (sortedDiffs numericClean).isEmpty then false
    else if 9/10 < stepPct numericClean ∧
        0 < modeSmallest (sortedDiffs numericClean) then true
    else false
  else false

/-- The local `ratio` of `classify_column`: `unique / total_rows if
total_rows > 0 else 0`. -/
def uniqFracOf (cells : List Cell) (totalRows : ℕ) : ℚ :=
  if 0 < totalRows then (uniqueOf cells : ℚ) / totalRows else 0

/-- The local `num_ratio` of `classify_column`: fraction of non-missing
values that coerce to numbers. -/
def numFracOf (cells : List Cell) : ℚ :=
  (((cleanOf cells).filterMap toNumeric).length : ℚ) / ((cleanOf cells).length : ℚ)

/-- Embedding of `classify_column` from `src/analysis.py` (lines 28-68).  The
`_is_date_column` helper (pandas `to_datetime` heuristics) is abstracted
as the oracle `dc`, invoked on exactly the arguments the code passes. -/
def classify_column (dc : List Cell → String → Bool) (cells : List Cell)
    (colName : String) (totalRows : ℕ) : String :=
  if (cleanOf cells).isEmpty then "String"
  else if dc (cleanOf cells) colName then "Date"
  else if 4/5 ≤ numFracOf cells then
    if is_sequential_id ((cleanOf cells).filterMap toNumeric) colName
        (uniqFracOf cells totalRows) (uniqueOf cells) then "Skipped"
    else "Numerical"
  else if 17/20 < uniqFracOf cells totalRows ∧ 50 < uniqueOf cells then "Skipped"
  else "String"

/-- Modelled from the spec: the step-pattern half of the
sequential-identifier test, as §4.1 words it — "sorting the numeric values
and taking successive differences shows one constant positive step value
accounting for > 90% of all differences". -/
def specStepCond (nv : List ℚ) : Bool :=
  decide ((9:ℚ)/10 < stepPct nv) && decide (0 < modeSmallest (sortedDiffs nv))

/-- Modelled from the spec: the sequential-identifier condition exactly as
claim C1 states it, with the STRICT uniqueness-ratio bound
`uniqueCount / totalRowCount > 0.95`. -/
def specSeqIdStrict (cells : List Cell) (colName : String) (totalRows : ℕ) : Bool :=
  decide ((19:ℚ)/20 < (uniqueOf cells : ℚ) / totalRows)
    && decide (100 < uniqueOf cells)
    && ((((cleanOf cells).filterMap toNumeric).take 200).all
      fun v => decide (v.den = 1))
    && (nameHasIdHint colName || specStepCond ((cleanOf cells).filterMap toNumeric))

/-- The sequential-identifier condition as amended: the uniqueness-ratio
bound is non-strict (`>= 0.95`), matching `if ratio < 0.95: return False`. -/
def specSeqIdGe (cells : List Cell) (colName : String) (totalRows : ℕ) : Bool :=
  decide ((19:ℚ)/20 ≤ (uniqueOf cells : ℚ) / totalRows)
    && decide (100 < uniqueOf cells)
    && ((((cleanOf cells).filterMap toNumeric).take 200).all
      fun v => decide (v.den = 1))
    && (nameHasIdHint colName || specStepCond ((cleanOf cells).filterMap toNumeric))

/-- Column of 120 rows witnessing the `>= 0.95` / `> 0.95` boundary: values
1..114 followed by the duplicates 1..6, so 114 of 120 rows are unique and
the uniqueness ratio is exactly 0.95. -/
def exC1 : List Cell :=
  ((List.range 114).map fun i => Cell.num ((i : ℚ) + 1)) ++
    ((List.range 6).map fun i => Cell.num ((i : ℚ) + 1))

/-- Small all-integer numeric column (for witnesses). -/
def exC1w : List Cell := [Cell.num 1, Cell.num 2, Cell.num 3, Cell.num 4]

/-- Small continuous numeric column with a fractional value and an
id-hinted name (for witnesses). -/
def exC2w : List Cell := [Cell.num (1/2), Cell.num 2, Cell.num 3]

/-- Ascending (stable) sort of a list of rationals. -/
def sortAsc (l : List ℚ) : List ℚ := l.mergeSort fun a b => decide (a ≤ b)

/-- Index part of linear-interpolation quantiles: `floor(pos)` clamped to
the last valid index (the clamp is a no-op for positions in range, which
is the only way the code reaches it). -/
def idxAt (n : ℕ) (pos : ℚ) : ℕ := min ⌊pos⌋.toNat (n - 1)

/-- Linear interpolation at fractional index `pos` into the sorted list
`s` — the arithmetic inside `np.percentile` / `Series.quantile`
(default `interpolation='linear'`). -/
def interpAt (s : List ℚ) (pos : ℚ) : ℚ :=
  s.getD (idxAt s.length pos) 0 +
    (pos - (idxAt s.length pos : ℚ)) *
      (s.getD (min (idxAt s.length pos + 1) (s.length - 1)) 0 -
        s.getD (idxAt s.length pos) 0)

/-- Embedding of `np.percentile(l, 100*p)` / `Series.quantile(p)` with linear
interpolation: sort, then interpolate at position `p * (n - 1)`.
(The code only evaluates quantiles of non-empty data; `0` on `[]`.) -/
def quantileOf (l : List ℚ) (p : ℚ) : ℚ :=
  if l.isEmpty then 0
  else interpAt (sortAsc l) (p * ((l.length : ℚ) - 1))

/-- Embedding of `clean.quantile(0.25)`. -/
def q1Of (l : List ℚ) : ℚ := quantileOf l (1/4)

/-- Embedding of `clean.quantile(0.75)`. -/
def q3Of (l : List ℚ) : ℚ := quantileOf l (3/4)

/-- Embedding of `clean.median()`. -/
def medianOf (l : List ℚ) : ℚ := quantileOf l (1/2)

/-- Embedding of `iqr = q3 - q1`. -/
def iqrOf (l : List ℚ) : ℚ := q3Of l - q1Of l

/-- Embedding of `lower = q1 - 1.5 * iqr` of `detect_outliers`. -/
def lowerFence (l : List ℚ) : ℚ := q1Of l - 3/2 * iqrOf l

/-- Embedding of `upper = q3 + 1.5 * iqr` of `detect_outliers`. -/
def upperFence (l : List ℚ) : ℚ := q3Of l + 3/2 * iqrOf l

/-- The full outlier scan of `detect_outliers`: iterate `numeric.items()`
in original row order, keep the non-`NaN` values strictly outside
`[lo, hi]`, and report each with its 1-based row index. -/
def outlierEntriesAll (cells : List Cell) (lo hi : ℚ) : List (ℕ × ℚ) :=
  cells.enum.filterMap fun p =>
    match toNumeric p.2 with
    | some v => if v < lo ∨ hi < v then some (p.1 + 1, v) else none
    | none => none

/-- Result shape of `detect_outliers`: the capped `rows` list (1-based row
index, value rounded to 1 decimal), the uncapped `total`, and the rounded
thresholds (absent in the too-few-values early return). -/
structure OutlierReport where
  rows : List (ℕ × ℚ)
  total : ℕ
  thresholds : Option (ℚ × ℚ)
deriving DecidableEq, Repr

/-- Embedding of `detect_outliers` from `src/analysis.py` (lines 198-225). -/
def detect_outliers (cells : List Cell) : OutlierReport :=
  if (numericValues cells).length < 4 then ⟨[], 0, none⟩
  else
    ⟨((outlierEntriesAll cells (lowerFence (numericValues cells))
        (upperFence (numericValues cells))).take 5).map
        (fun p => (p.1, round1 p.2)),
      (outlierEntriesAll cells (lowerFence (numericValues cells))
        (upperFence (numericValues cells))).length,
      some (round1 (lowerFence (numericValues cells)),
        round1 (upperFence (numericValues cells)))⟩

/-- Column with five numeric values, one far outlier (for witnesses). -/
def exC5w : List Cell :=
  [Cell.num 1, Cell.num 2, Cell.num 2, Cell.num 3, Cell.num 100]

/-- Embedding of `clean.min()` (0 on `[]`, never reached by the code). -/
def listMin (l : List ℚ) : ℚ :=
  match l with
  | [] => 0
  | a :: t => t.foldl min a

/-- Embedding of `clean.max()` (0 on `[]`, never reached by the code). -/
def listMax (l : List ℚ) : ℚ :=
  match l with
  | [] => 0
  | a :: t => t.foldl max a

/-- The histogram range used by `np.histogram`: `[min, max]`, widened to
`[min - 0.5, max + 0.5]` when the data has no spread. -/
def histRange (lo hi : ℚ) : ℚ × ℚ := if lo = hi then (lo - 1/2, hi + 1/2) else (lo, hi)

/-- Bin assignment of `np.histogram` over `k` equal-width bins spanning
`[lo, hi]`: half-open bins with the last bin closed, i.e.
`min(floor((v - lo) * k / (hi - lo)), k - 1)`. -/
def binIdx (lo hi : ℚ) (k : ℕ) (v : ℚ) : ℕ :=
  min (⌊(v - lo) * k / (hi - lo)⌋.toNat) (k - 1)

/-- Per-bin counts of `np.histogram(clean, bins=k)`. -/
def histCounts (l : List ℚ) (k : ℕ) : List ℕ :=
  (List.range k).map fun i => l.countP fun v =>
    decide (binIdx (histRange (listMin l) (listMax l)).1
      (histRange (listMin l) (listMax l)).2 k v = i)

/-- Bin edge `i` of `k` equal-width bins over `[lo, hi]`. -/
def binEdge (lo hi : ℚ) (k i : ℕ) : ℚ := lo + i * (hi - lo) / k

/-- The rounded `"lo – hi"` label ranges of `histogram_data`, kept as
rational pairs (the code renders them as strings). -/
def binRangesOf (l : List ℚ) (k : ℕ) : List (ℚ × ℚ) :=
  (List.range k).map fun i =>
    (round1 (binEdge (histRange (listMin l) (listMax l)).1
        (histRange (listMin l) (listMax l)).2 k i),
      round1 (binEdge (histRange (listMin l) (listMax l)).1
        (histRange (listMin l) (listMax l)).2 k (i + 1)))

/-- The adaptive bin count of `histogram_data` (lines 151-158): when
IQR > 0, Freedman-Diaconis `ceil((max - min) / (2 * iqr * n^(-1/3)))`
floored at 5; otherwise `min(int(sqrt(n)), 30)`; finally capped at 50.
The cube root forces `ℝ`. -/
noncomputable def nBins (l : List ℚ) : ℕ :=
  if 0 < iqrOf l then
    min (max (⌈((listMax l - listMin l : ℚ) : ℝ) /
      (2 * ((iqrOf l : ℚ) : ℝ) * ((l.length : ℝ) ^ ((-1 : ℝ)/3)))⌉.toNat) 5) 50
  else min (min (Nat.sqrt l.length) 30) 50

/-- Chart payload of `histogram_data`: label ranges and per-bin counts. -/
structure HistData where
  binRanges : List (ℚ × ℚ)
  values : List ℕ

/-- Embedding of `histogram_data` from `src/analysis.py` (lines 144-174); `{}` on
fewer than 2 numeric values is modelled as `none`. -/
noncomputable def histogram_data (cells : List Cell) : Option HistData :=
  if (numericValues cells).length < 2 then none
  else some
    { binRanges := binRangesOf (numericValues cells) (nBins (numericValues cells)),
      values := histCounts (numericValues cells) (nBins (numericValues cells)) }

/-- Column with four numeric values and positive IQR (for witnesses). -/
def exC6w : List Cell := [Cell.num 1, Cell.num 2, Cell.num 2, Cell.num 3]

/-- Constant column of 961 identical values: `floor(sqrt(961)) = 31` exceeds the code's
30-bin cap in the IQR = 0 branch. -/
def exC7 : List Cell := List.replicate 961 (Cell.num 7)

/-- Embedding of `clean.mean()`: arithmetic mean (0 on `[]`, never reached). -/
def meanOf (l : List ℚ) : ℚ := l.sum / l.length

/-- Embedding of `clean.std()`: sample standard deviation (`ddof = 1`); the square
root forces `ℝ`.  (pandas yields `NaN` for n = 1; the model returns the
junk value 0 there, which no claim inspects.) -/
noncomputable def stdOf (l : List ℚ) : ℝ :=
  Real.sqrt ((((l.map fun x => (x - meanOf l)^2).sum : ℚ) : ℝ) / ((l.length : ℝ) - 1))

open Classical in
/-- Python `round(x)` (half to even) on a real. -/
noncomputable def pyRoundR (x : ℝ) : ℤ :=
  if x - ⌊x⌋ < 1/2 then ⌊x⌋
  else if 1/2 < x - ⌊x⌋ then ⌊x⌋ + 1
  else if ⌊x⌋ % 2 = 0 then ⌊x⌋ else ⌊x⌋ + 1

/-- Python `round(x, 1)` on a real. -/
noncomputable def round1R (x : ℝ) : ℝ := (pyRoundR (x * 10) : ℝ) / 10

/-- Python `round(x, 2)` on a real (used for correlation cells). -/
noncomputable def round2R (x : ℝ) : ℝ := (pyRoundR (x * 100) : ℝ) / 100

/-- The `stats` block built for a Numerical column (lines 413-419). -/
structure NumStats where
  min : ℚ
  max : ℚ
  mean : ℚ
  median : ℚ
  std : ℝ

/-- The concrete `stats` values (each rounded to 1 decimal). -/
noncomputable def mkStats (l : List ℚ) : NumStats :=
  { min := round1 (listMin l), max := round1 (listMax l),
    mean := round1 (meanOf l), median := round1 (medianOf l),
    std := round1R (stdOf l) }

/-- The `stats` block of the Numerical branch of `analyse_file`
(lines 410-419): populated as soon as at least one numeric value exists. -/
noncomputable def numericStats (cells : List Cell) : Option NumStats :=
  if 0 < (numericValues cells).length then some (mkStats (numericValues cells))
  else none

/-- Payload of `boxplot_data`: whisker `min`/`max`, quartiles, median and
the capped list of outlier values. -/
structure BoxplotData where
  min : ℚ
  q1 : ℚ
  median : ℚ
  q3 : ℚ
  max : ℚ
  outliers : List ℚ

/-- Embedding of `boxplot_data` from `src/analysis.py` (lines 228-252); `{}` on fewer
than 4 numeric values is modelled as `none`.  The whiskers are the most
extreme values inside the IQR fences; outlier values are capped at 50. -/
def boxplot_data (cells : List Cell) : Option BoxplotData :=
  if (numericValues cells).length < 4 then none
  else some
    { min := round1 (listMin ((numericValues cells).filter fun v =>
        decide (lowerFence (numericValues cells) ≤ v))),
      q1 := round1 (q1Of (numericValues cells)),
      median := round1 (medianOf (numericValues cells)),
      q3 := round1 (q3Of (numericValues cells)),
      max := round1 (listMax ((numericValues cells).filter fun v =>
        decide (v ≤ upperFence (numericValues cells)))),
      outliers := (((numericValues cells).filter fun v =>
        decide (v < lowerFence (numericValues cells) ∨
          upperFence (numericValues cells) < v)).take 50).map round1 }

/-- Column with three numeric values 1, 2, 3: enough for stats and
histogram, too few for outliers and boxplot. -/
def exC8 : List Cell := [Cell.num 1, Cell.num 2, Cell.num 3]

/-- Embedding of `str(v)` for a preview / bar-chart cell; missing renders as `""`. -/
def cellStr : Cell → String
  | Cell.missing => ""
  | Cell.num q => toString q
  | Cell.text s => s

/-- Distinct values in first-appearance order. -/
def dedupFirst (l : List String) : List String :=
  l.foldl (fun acc a => if a ∈ acc then acc else acc ++ [a]) []

/-- Payload of `bar_chart_data`: category labels and their counts. -/
structure BarData where
  labels : List String
  values : List ℕ

/-- Embedding of `bar_chart_data` from `src/analysis.py` (lines 177-195):
`value_counts().head(30)` — distinct stringified non-missing values
ranked by descending count (stable on ties), capped at 30. -/
def bar_chart_data (cells : List Cell) : Option BarData :=
  if (cleanOf cells).isEmpty then none
  else some
    { labels := ((dedupFirst ((cleanOf cells).map cellStr)).mergeSort fun a b =>
        decide (((cleanOf cells).map cellStr).count b ≤
          ((cleanOf cells).map cellStr).count a)).take 30,
      values := (((dedupFirst ((cleanOf cells).map cellStr)).mergeSort fun a b =>
        decide (((cleanOf cells).map cellStr).count b ≤
          ((cleanOf cells).map cellStr).count a)).take 30).map
        fun s => ((cleanOf cells).map cellStr).count s }

/-- A chart payload: histogram (Numerical) or bar chart (String). -/
inductive ChartData where
  | hist : HistData → ChartData
  | bar : BarData → ChartData

/-- One per-column entry of `column_analysis` (lines 389-401 / 447-460). -/
structure ColEntry where
  name : String
  category : String
  dtype : String
  unique : ℕ
  quality : ℚ
  missing : ℕ
  stats : Option NumStats
  dateStats : Option (String × String)
  boxplot : Option BoxplotData
  chart : Option ChartData
  chart2 : Option ChartData
  outliers : OutlierReport
  skipReason : Option String
  errorMsg : Option String

/-- Per-column `quality` (line 387): `round((1 - missing/total)*100, 1)`,
100 when the table has no rows. -/
def qualityOf (missing totalRows : ℕ) : ℚ :=
  if 0 < totalRows then round1 ((1 - (missing : ℚ) / totalRows) * 100) else 100

/-- The entry emitted by the `except` arm of the per-column loop
(lines 447-460): category `Error`, hard-coded `unique = 0`,
`quality = 0`, `missing = 0`, and the exception message. -/
def errorEntry (nm dt msg : String) : ColEntry :=
  { name := nm, category := "Error", dtype := dt, unique := 0, quality := 0,
    missing := 0, stats := none, dateStats := none, boxplot := none,
    chart := none, chart2 := none, outliers := ⟨[], 0, none⟩,
    skipReason := none, errorMsg := some msg }

/-- Oracle for the pandas `to_datetime` behaviour: the `_is_date_column`
verdict and the parsed min/max range of the Date branch. -/
structure DateOracle where
  check : List Cell → String → Bool
  range : List Cell → Option (String × String)

/-- One column of the input table. -/
structure Column where
  name : String
  dtype : String
  cells : List Cell

/-- An input table: pandas guarantees every column has `nrows` cells. -/
structure Table where
  cols : List Column
  nrows : ℕ

/-- The body of the per-column `try` block (lines 381-443): classify,
then populate the branch-specific artifacts. -/
noncomputable def analyse_column (o : DateOracle) (totalRows : ℕ) (c : Column) :
    ColEntry :=
  { name := c.name,
    category := classify_column o.check c.cells c.name totalRows,
    dtype := c.dtype,
    unique := uniqueOf c.cells,
    quality := qualityOf (missingOf c.cells) totalRows,
    missing := missingOf c.cells,
    stats := if classify_column o.check c.cells c.name totalRows = "Numerical"
      then numericStats c.cells else none,
    dateStats := if classify_column o.check c.cells c.name totalRows = "Date"
      then o.range c.cells else none,
    boxplot := if classify_column o.check c.cells c.name totalRows = "Numerical" ∧
        0 < (numericValues c.cells).length then boxplot_data c.cells else none,
    chart := if classify_column o.check c.cells c.name totalRows = "Numerical" ∧
        0 < (numericValues c.cells).length then
        (histogram_data c.cells).map ChartData.hist
      else if classify_column o.check c.cells c.name totalRows = "String" then
        (bar_chart_data c.cells).map ChartData.bar
      else none,
    chart2 := none,
    outliers := if classify_column o.check c.cells c.name totalRows = "Numerical" ∧
        0 < (numericValues c.cells).length then detect_outliers c.cells
      else ⟨[], 0, none⟩,
    skipReason := if classify_column o.check c.cells c.name totalRows = "Skipped"
      then some ("High cardinality (" ++ toString (uniqueOf c.cells) ++
        " unique of " ++ toString totalRows ++ " rows - likely an identifier)")
      else none,
    errorMsg := none }

/-- The per-column loop of `analyse_file` (lines 380-461): the `try`
body is an `Except`-valued analyzer (an unexpected exception is the
`error` case); the `except` arm emits `errorEntry` for that column only
and the iteration continues. -/
def processColumns (analyze : Column → Except String ColEntry)
    (cols : List Column) : List ColEntry :=
  cols.map fun c =>
    match analyze c with
    | Except.ok e => e
    | Except.error m => errorEntry c.name c.dtype m

/-- Embedding of `num_cols` (line 465): names of the entries classified Numerical. -/
def numericNames (entries : List ColEntry) : List String :=
  (entries.filter fun e => decide (e.category = "Numerical")).map fun e => e.name

/-- Pairwise-complete rows: keep a row only when both columns hold a
numeric value (pandas `corr`). -/
def pairedVals (xs ys : List (Option ℚ)) : List (ℚ × ℚ) :=
  (xs.zip ys).filterMap fun ab =>
    match ab with
    | (some a, some b) => some (a, b)
    | _ => none

/-- Centered cross-product sum `Σ (x - x̄)(y - ȳ)` over paired rows. -/
def sxyOf (ps : List (ℚ × ℚ)) : ℚ :=
  (ps.map fun p => (p.1 - meanOf (ps.map Prod.fst)) *
    (p.2 - meanOf (ps.map Prod.snd))).sum

/-- Centered square sum `Σ (x - x̄)²` of the first components. -/
def sxxOf (ps : List (ℚ × ℚ)) : ℚ :=
  (ps.map fun p => (p.1 - meanOf (ps.map Prod.fst))^2).sum

/-- Centered square sum `Σ (y - ȳ)²` of the second components. -/
def syyOf (ps : List (ℚ × ℚ)) : ℚ :=
  (ps.map fun p => (p.2 - meanOf (ps.map Prod.snd))^2).sum

/-- Pearson correlation of two option-valued columns over their
pairwise-complete rows (`num_df.corr()`), `Sxy / (√Sxx · √Syy)`.
Degenerate denominators give the junk value 0 where pandas emits `NaN`;
no claim inspects those cells. -/
noncomputable def pearson (xs ys : List (Option ℚ)) : ℝ :=
  ((sxyOf (pairedVals xs ys) : ℚ) : ℝ) /
    (Real.sqrt ((sxxOf (pairedVals xs ys) : ℚ) : ℝ) *
      Real.sqrt ((syyOf (pairedVals xs ys) : ℚ) : ℝ))

/-- Embedding of `df[name]` coerced with `pd.to_numeric` (first matching column). -/
def colCells (t : Table) (nm : String) : List (Option ℚ) :=
  match t.cols.find? fun c => decide (c.name = nm) with
  | some c => c.cells.map toNumeric
  | none => []

/-- The `correlation` block (lines 469-473). -/
structure CorrBlock where
  columns : List String
  matrix : List (List ℝ)

/-- The correlation matrix over the named columns, each cell rounded to
2 decimals (line 471). -/
noncomputable def mkCorr (t : Table) (names : List String) : CorrBlock :=
  { columns := names,
    matrix := (List.range names.length).map fun i =>
      (List.range names.length).map fun j =>
        round2R (pearson (colCells t (names.getD i ""))
          (colCells t (names.getD j ""))) }

/-- Matrix cell access (out-of-range reads the junk value 0). -/
noncomputable def matAt (M : CorrBlock) (i j : ℕ) : ℝ :=
  (M.matrix.getD i []).getD j 0

/-- Lines 463-473: the correlation block stays empty (`none`) unless at
least two columns were classified Numerical. -/
noncomputable def correlationBlock (t : Table) (entries : List ColEntry) :
    Option CorrBlock :=
  if 2 ≤ (numericNames entries).length then some (mkCorr t (numericNames entries))
  else none

/-- The full profile result of `analyse_file` for a readable table
(lines 347-485). -/
structure ProfileResult where
  valid : Bool
  rows : ℕ
  columns : ℕ
  columnNames : List String
  preview : List (List String)
  overallQuality : ℚ
  totalCells : ℕ
  totalMissing : ℕ
  correlation : Option CorrBlock
  columnAnalysis : List ColEntry
  logMessages : List String

/-- Embedding of `analyse_file` from `src/analysis.py` (lines 321-485) after a
successful read: table-level quality, stringified 5-row preview, the
per-column loop, and the correlation block.  File I/O and the
read-failure paths live in the out-of-scope ingestion collaborator. -/
noncomputable def analyse_table (o : DateOracle) (t : Table) : ProfileResult :=
  { valid := true,
    rows := t.nrows,
    columns := t.cols.length,
    columnNames := t.cols.map fun c => c.name,
    preview := (List.range (min 5 t.nrows)).map fun i =>
      t.cols.map fun c => cellStr (c.cells.getD i Cell.missing),
    overallQuality := if 0 < t.nrows * t.cols.length then
        round1 ((1 - ((t.cols.map fun c => missingOf c.cells).sum : ℚ) /
          ((t.nrows * t.cols.length : ℕ) : ℚ)) * 100)
      else 100,
    totalCells := t.nrows * t.cols.length,
    totalMissing := (t.cols.map fun c => missingOf c.cells).sum,
    correlation := correlationBlock t
      (processColumns (fun c => Except.ok (analyse_column o t.nrows c)) t.cols),
    columnAnalysis :=
      processColumns (fun c => Except.ok (analyse_column o t.nrows c)) t.cols,
    logMessages := (processColumns
        (fun c => Except.ok (analyse_column o t.nrows c)) t.cols).filterMap
      fun e => if e.category = "Skipped" then
          some ("Column " ++ e.name ++ " skipped: high cardinality (likely ID/key)")
        else none }

/-- A stock successful entry used by concrete analyzers in witnesses. -/
def plainEntry (nm dt : String) : ColEntry :=
  { name := nm, category := "String", dtype := dt, unique := 0, quality := 100,
    missing := 0, stats := none, dateStats := none, boxplot := none,
    chart := none, chart2 := none, outliers := ⟨[], 0, none⟩,
    skipReason := none, errorMsg := none }

/-- A stock Numerical-category entry (for correlation witnesses). -/
def entryNum (nm : String) : ColEntry :=
  { name := nm, category := "Numerical", dtype := "float64", unique := 0,
    quality := 100, missing := 0, stats := none, dateStats := none,
    boxplot := none, chart := none, chart2 := none, outliers := ⟨[], 0, none⟩,
    skipReason := none, errorMsg := none }

/-- Three-column list whose middle column's analysis fails. -/
def exCols3 : List Column :=
  [⟨"a", "int64", [Cell.num 1]⟩, ⟨"bad", "object", [Cell.text "x"]⟩,
    ⟨"b", "float64", [Cell.num 2]⟩]

/-- Analyzer that raises exactly on the column named `bad`. -/
def exAnalyze3 : Column → Except String ColEntry := fun c =>
  if c.name = "bad" then Except.error "boom"
  else Except.ok (plainEntry c.name c.dtype)

/-- Single column with a missing cell and a duplicate value, whose
analysis fails. -/
def exCols10 : List Column :=
  [⟨"c", "int64", [Cell.num 1, Cell.missing, Cell.num 1]⟩]

/-- Analyzer that always raises. -/
def exAnalyze10 : Column → Except String ColEntry := fun _ => Except.error "oops"

/-- Two-column numeric table (for correlation witnesses). -/
def exT4 : Table :=
  { cols := [⟨"a", "float64", [Cell.num 1, Cell.num 2, Cell.num 3]⟩,
      ⟨"b", "float64", [Cell.num 2, Cell.num 4, Cell.num 5]⟩],
    nrows := 3 }

/-- Entry list classifying both columns of `exT4` as Numerical. -/
def exE4 : List ColEntry := [entryNum "a", entryNum "b"]

/-- Entry list with a single Numerical column (for the empty-block case). -/
def exE4one : List ColEntry := [entryNum "a", plainEntry "b" "object"]

-- [DEFS-END]

/-! ## Theorems -/

set_option maxRecDepth 100000

/-- The boolean returned by `_is_sequential_id` coincides with the
specification's sequential-identifier condition once the uniqueness-ratio
bound is read as non-strict (`>= 0.95`). -/
theorem is_sequential_id_eq_spec (cells : List Cell) (nm : String) (totalRows : ℕ) :
    is_sequential_id ((cleanOf cells).filterMap toNumeric) nm
      ((uniqueOf cells : ℚ) / totalRows) (uniqueOf cells) =
      specSeqIdGe cells nm totalRows := by
  unfold is_sequential_id specSeqIdGe specStepCond
  by_cases h1 : ((uniqueOf cells : ℚ) / totalRows < 19/20 ∨ uniqueOf cells ≤ 100)
  · rw [if_pos h1]
    rcases h1 with h | h
    · have hnot : ¬ ((19:ℚ)/20 ≤ (uniqueOf cells : ℚ) / totalRows) := not_le.mpr h
      simp [hnot]
    · have hnot : ¬ (100 < uniqueOf cells) := not_lt.mpr h
      simp [hnot]
  · rw [if_neg h1]
    push_neg at h1
    obtain ⟨h1a, h1b⟩ := h1
    have e1 : decide ((19:ℚ)/20 ≤ (uniqueOf cells : ℚ) / totalRows) = true :=
      decide_eq_true h1a
    have e2 : decide (100 < uniqueOf cells) = true := decide_eq_true h1b
    by_cases h2 : ((((cleanOf cells).filterMap toNumeric).take 200).all
        fun v => decide (v.den = 1)) = true
    · rw [if_pos h2, e1, e2, h2]
      by_cases h3 : nameHasIdHint nm = true
      · simp [h3]
      · have h3' : nameHasIdHint nm = false := Bool.eq_false_iff.mpr h3
        rw [if_neg h3, h3']
        by_cases h4 : (sortedDiffs ((cleanOf cells).filterMap toNumeric)).isEmpty = true
        · rw [if_pos h4]
          have h4' := List.isEmpty_iff.mp h4
          have hpct : stepPct ((cleanOf cells).filterMap toNumeric) = 0 := by
            unfold stepPct
            rw [h4']
            simp
          simp [hpct]
          norm_num
        · rw [if_neg h4]
          by_cases h5 : ((9:ℚ)/10 < stepPct ((cleanOf cells).filterMap toNumeric) ∧
              0 < modeSmallest (sortedDiffs ((cleanOf cells).filterMap toNumeric)))
          · rw [if_pos h5]
            simp [h5.1, h5.2]
          · rw [if_neg h5]
            rcases not_and_or.mp h5 with h | h <;> simp [h]
    · have h2' : ((((cleanOf cells).filterMap toNumeric).take 200).all
          fun v => decide (v.den = 1)) = false := Bool.eq_false_iff.mpr h2
      rw [if_neg h2, h2']
      simp

/-- Claim C1, as stated, is false at a concrete column: 120 rows holding
the integers 1..114 then the duplicates 1..6 (uniqueness ratio exactly
0.95, all-integer, fully numeric, name containing `_id`).  The code
classifies it `Skipped` (its guard is `ratio < 0.95 → not an id`), while
the claim's strict `uniqueCount/totalRowCount > 0.95` condition fails, so
the claim predicts `Numerical`. -/
theorem C1_counterexample :
    classify_column (fun _ _ => false) exC1 "x_id" 120 = "Skipped" ∧
    specSeqIdStrict exC1 "x_id" 120 = false ∧
    (4:ℚ)/5 ≤ numFracOf exC1 := by
  refine ⟨?_, ?_, ?_⟩ <;> with_unfolding_all decide

/-- Claim C1 (amended): for a column whose non-missing values parse as
numbers with ratio >= 0.8 and which is not classified Date, `classify`
returns `Skipped` iff the spec's sequential-identifier condition holds
with a NON-STRICT uniqueness-ratio bound (`uniqueCount/totalRowCount
>= 0.95`), and otherwise returns `Numerical`. -/
theorem C1_amended (dc : List Cell → String → Bool) (cells : List Cell)
    (nm : String) (totalRows : ℕ)
    (hne : cleanOf cells ≠ []) (hdc : dc (cleanOf cells) nm = false)
    (htot : 0 < totalRows)
    (hnum : (4:ℚ)/5 ≤ numFracOf cells) :
    (classify_column dc cells nm totalRows = "Skipped" ↔
      specSeqIdGe cells nm totalRows = true) ∧
    (classify_column dc cells nm totalRows = "Numerical" ↔
      specSeqIdGe cells nm totalRows = false) := by
  have hufrac : uniqFracOf cells totalRows = (uniqueOf cells : ℚ) / totalRows := by
    unfold uniqFracOf
    rw [if_pos htot]
  have hcl : classify_column dc cells nm totalRows =
      if specSeqIdGe cells nm totalRows then "Skipped" else "Numerical" := by
    unfold classify_column
    rw [if_neg (by simpa [List.isEmpty_iff] using hne)]
    rw [if_neg (by simp [hdc])]
    rw [if_pos hnum, hufrac, is_sequential_id_eq_spec]
  rw [hcl]
  cases hb : specSeqIdGe cells nm totalRows <;> simp

/-- Witness for C1_amended: a 4-value all-integer column named `salary`
with only 4 distinct values is classified `Numerical`. -/
theorem C1_witness :
    cleanOf exC1w ≠ [] ∧ (0:ℕ) < 4 ∧
    (classify_column (fun _ _ => false) exC1w "salary" 4 = "Numerical" ↔
      specSeqIdGe exC1w "salary" 4 = false) :=
  ⟨by with_unfolding_all decide, by decide,
    (C1_amended (fun _ _ => false) exC1w "salary" 4
      (by with_unfolding_all decide) rfl (by decide)
      (by with_unfolding_all decide)).2⟩

/-- Claim C2: a column with numeric ratio >= 0.8, not classified Date,
in which some value among the first 200 numeric values has a nonzero
fractional part, is always classified `Numerical` and never `Skipped`,
whatever its name. -/
theorem C2_continuous_numerical (dc : List Cell → String → Bool)
    (cells : List Cell) (nm : String) (totalRows : ℕ)
    (hne : cleanOf cells ≠ []) (hdc : dc (cleanOf cells) nm = false)
    (hnum : (4:ℚ)/5 ≤ numFracOf cells)
    (hfrac : ∃ v ∈ ((cleanOf cells).filterMap toNumeric).take 200, v.den ≠ 1) :
    classify_column dc cells nm totalRows = "Numerical" ∧
    classify_column dc cells nm totalRows ≠ "Skipped" := by
  have hall : ((((cleanOf cells).filterMap toNumeric).take 200).all
      fun v => decide (v.den = 1)) = false := by
    rcases hfrac with ⟨v, hv, hden⟩
    refine Bool.eq_false_iff.mpr fun hcon => hden ?_
    have := List.all_eq_true.mp hcon v hv
    exact of_decide_eq_true this
  have hseq : ∀ (uf : ℚ) (u : ℕ),
      is_sequential_id ((cleanOf cells).filterMap toNumeric) nm uf u = false := by
    intro uf u
    unfold is_sequential_id
    by_cases h1 : (uf < 19/20 ∨ u ≤ 100)
    · rw [if_pos h1]
    · rw [if_neg h1, if_neg (by simp [hall])]
  have hcl : classify_column dc cells nm totalRows = "Numerical" := by
    unfold classify_column
    rw [if_neg (by simpa [List.isEmpty_iff] using hne)]
    rw [if_neg (by simp [hdc])]
    rw [if_pos hnum, hseq]
    simp
  exact ⟨hcl, by rw [hcl]; decide⟩

/-- Witness for C2: a column holding 0.5, 2, 3 with the id-hinted name
`price_id` is still classified `Numerical`. -/
theorem C2_witness :
    (∃ v ∈ ((cleanOf exC2w).filterMap toNumeric).take 200, v.den ≠ 1) ∧
    classify_column (fun _ _ => false) exC2w "price_id" 3 = "Numerical" :=
  ⟨by with_unfolding_all decide,
    (C2_continuous_numerical (fun _ _ => false) exC2w "price_id" 3
      (by with_unfolding_all decide) rfl (by with_unfolding_all decide)
      (by with_unfolding_all decide)).1⟩

theorem sortAsc_sorted (l : List ℚ) : (sortAsc l).Sorted (· ≤ ·) := by
  have htrans : ∀ a b c : ℚ, (decide (a ≤ b)) = true → (decide (b ≤ c)) = true →
      (decide (a ≤ c)) = true := fun a b c hab hbc =>
    decide_eq_true (le_trans (of_decide_eq_true hab) (of_decide_eq_true hbc))
  have htotal : ∀ a b : ℚ, (decide (a ≤ b) || decide (b ≤ a)) = true := by
    intro a b
    rcases le_total a b with h | h <;> simp [h]
  have := List.sorted_mergeSort htrans htotal l
  exact List.Pairwise.imp (fun h => of_decide_eq_true h) this

theorem sortAsc_length (l : List ℚ) : (sortAsc l).length = l.length :=
  (List.mergeSort_perm l _).length_eq

theorem sorted_getD_mono {s : List ℚ} (hs : s.Sorted (· ≤ ·)) {a b : ℕ}
    (hab : a ≤ b) (hb : b < s.length) : s.getD a 0 ≤ s.getD b 0 := by
  have ha : a < s.length := lt_of_le_of_lt hab hb
  rw [List.getD_eq_getElem s 0 ha, List.getD_eq_getElem s 0 hb]
  have := hs.get_mono (a := ⟨a, ha⟩) (b := ⟨b, hb⟩) hab
  simpa [List.get_eq_getElem] using this

theorem idxAt_spec {n : ℕ} (hn : 1 ≤ n) {q : ℚ} (hq0 : 0 ≤ q)
    (hq1 : q ≤ (n : ℚ) - 1) :
    (idxAt n q : ℚ) = (⌊q⌋ : ℚ) ∧ idxAt n q ≤ n - 1 := by
  have hf0 : 0 ≤ ⌊q⌋ := Int.floor_nonneg.mpr hq0
  have hfle : (⌊q⌋ : ℚ) ≤ (n : ℚ) - 1 := le_trans (Int.floor_le q) hq1
  have hfle' : ⌊q⌋ ≤ (n : ℤ) - 1 := by exact_mod_cast hfle
  have htn : ⌊q⌋.toNat ≤ n - 1 := by omega
  refine ⟨?_, ?_⟩
  · unfold idxAt
    rw [Nat.min_eq_left htn]
    exact_mod_cast Int.toNat_of_nonneg hf0
  · unfold idxAt
    exact min_le_right _ _

theorem interpAt_mono {s : List ℚ} (hs : s.Sorted (· ≤ ·)) (hne : s ≠ [])
    {pos pos' : ℚ} (h0 : 0 ≤ pos) (hpp : pos ≤ pos')
    (h1 : pos' ≤ (s.length : ℚ) - 1) :
    interpAt s pos ≤ interpAt s pos' := by
  have hn : 1 ≤ s.length := List.length_pos.mpr hne
  have h0' : 0 ≤ pos' := le_trans h0 hpp
  have hpos1 : pos ≤ (s.length : ℚ) - 1 := le_trans hpp h1
  obtain ⟨hie, hib⟩ := idxAt_spec hn h0 hpos1
  obtain ⟨hie', hib'⟩ := idxAt_spec hn h0' h1
  set i := idxAt s.length pos with hidef
  set i' := idxAt s.length pos' with hidef'
  have hiq : (i : ℚ) ≤ pos := by rw [hie]; exact Int.floor_le pos
  have hiq1 : pos < (i : ℚ) + 1 := by rw [hie]; exact Int.lt_floor_add_one pos
  have hiq' : (i' : ℚ) ≤ pos' := by rw [hie']; exact Int.floor_le pos'
  have hii : i ≤ i' := by
    have hff : ⌊pos⌋ ≤ ⌊pos'⌋ := Int.floor_le_floor hpp
    rw [hidef, hidef']
    unfold idxAt
    exact min_le_min (by omega) le_rfl
  have hilt : i < s.length := by omega
  have hilt' : i' < s.length := by omega
  have hminb : min (i + 1) (s.length - 1) < s.length := by
    have := min_le_right (i + 1) (s.length - 1)
    omega
  have hminb' : min (i' + 1) (s.length - 1) < s.length := by
    have := min_le_right (i' + 1) (s.length - 1)
    omega
  have hAB : s.getD i 0 ≤ s.getD (min (i + 1) (s.length - 1)) 0 :=
    sorted_getD_mono hs (le_min (Nat.le_succ i) hib) hminb
  have hAB' : s.getD i' 0 ≤ s.getD (min (i' + 1) (s.length - 1)) 0 :=
    sorted_getD_mono hs (le_min (Nat.le_succ i') hib') hminb'
  unfold interpAt
  rw [← hidef, ← hidef']
  rcases Nat.lt_or_ge i i' with hlt | hge
  · -- the two positions fall in different segments
    have h1le : pos - (i : ℚ) ≤ 1 := by linarith
    have h2 : s.getD (min (i + 1) (s.length - 1)) 0 ≤ s.getD i' 0 := by
      apply sorted_getD_mono hs _ hilt'
      have := min_le_left (i + 1) (s.length - 1)
      omega
    nlinarith [hAB, hAB', sub_nonneg.mpr hiq, sub_nonneg.mpr hiq']
  · -- same segment: i = i'
    have heq : i = i' := le_antisymm hii hge
    rw [← heq]
    have hmul : (pos' - pos) * (s.getD (min (i + 1) (s.length - 1)) 0 - s.getD i 0) ≥ 0 :=
      mul_nonneg (by linarith) (by linarith)
    nlinarith [hmul]

theorem quantileOf_mono {l : List ℚ} (hne : l ≠ []) {p p' : ℚ}
    (h0 : 0 ≤ p) (hpp : p ≤ p') (h1 : p' ≤ 1) :
    quantileOf l p ≤ quantileOf l p' := by
  have hln : 1 ≤ l.length := List.length_pos.mpr hne
  have hn1 : (0:ℚ) ≤ (l.length : ℚ) - 1 := by
    have : (1:ℚ) ≤ (l.length : ℚ) := by exact_mod_cast hln
    linarith
  have hne' : sortAsc l ≠ [] := by
    intro hcon
    have := sortAsc_length l
    rw [hcon] at this
    simp at this
    omega
  have hemp : l.isEmpty = false := by simp [List.isEmpty_iff, hne]
  unfold quantileOf
  rw [hemp]
  simp only [Bool.false_eq_true, if_false]
  apply interpAt_mono (sortAsc_sorted l) hne'
  · exact mul_nonneg h0 hn1
  · exact mul_le_mul_of_nonneg_right hpp hn1
  · rw [sortAsc_length]
    calc p' * ((l.length : ℚ) - 1) ≤ 1 * ((l.length : ℚ) - 1) :=
          mul_le_mul_of_nonneg_right h1 hn1
      _ = (l.length : ℚ) - 1 := one_mul _

theorem mem_outlierEntriesAll (cells : List Cell) (lo hi : ℚ) (i : ℕ) (v : ℚ) :
    (i, v) ∈ outlierEntriesAll cells lo hi ↔
      1 ≤ i ∧ ∃ c, cells[i-1]? = some c ∧ toNumeric c = some v ∧
        (v < lo ∨ hi < v) := by
  unfold outlierEntriesAll
  rw [List.mem_filterMap]
  constructor
  · rintro ⟨⟨j, c⟩, hmem, heq⟩
    have hget : cells[j]? = some c := by
      have := List.mem_enum_iff_getElem?.mp hmem
      simpa using this
    rcases htn : toNumeric c with _ | w
    · rw [htn] at heq
      dsimp only at heq
      simp at heq
    · rw [htn] at heq
      dsimp only at heq
      by_cases hout : (w < lo ∨ hi < w)
      · rw [if_pos hout] at heq
        have hij : j + 1 = i ∧ w = v := by
          constructor <;> [exact congrArg Prod.fst (Option.some_injective _ heq);
            exact congrArg Prod.snd (Option.some_injective _ heq)]
        obtain ⟨hj, hw⟩ := hij
        subst hw
        refine ⟨by omega, c, ?_, htn, hout⟩
        rw [show i - 1 = j from by omega]
        exact hget
      · rw [if_neg hout] at heq
        simp at heq
  · rintro ⟨hi1, c, hget, htn, hout⟩
    refine ⟨(i - 1, c), ?_, ?_⟩
    · exact List.mem_enum_iff_getElem?.mpr (by simpa using hget)
    · rw [htn]
      dsimp only
      rw [if_pos hout, show i - 1 + 1 = i from by omega]

/-- Claim C5: with at least 4 numeric values, the IQR fences satisfy
`lower ≤ Q1 ≤ median ≤ Q3 ≤ upper`; a value is reported as an outlier
iff it lies strictly outside `[lower, upper]` (carrying its 1-based
original row index); the returned list is the first 5 outliers in row
order (values rounded to 1 decimal) while `total` counts them all; and
the rounded thresholds are always returned. -/
theorem C5_outliers (cells : List Cell)
    (h4 : 4 ≤ (numericValues cells).length) :
    lowerFence (numericValues cells) ≤ q1Of (numericValues cells) ∧
    q1Of (numericValues cells) ≤ medianOf (numericValues cells) ∧
    medianOf (numericValues cells) ≤ q3Of (numericValues cells) ∧
    q3Of (numericValues cells) ≤ upperFence (numericValues cells) ∧
    (∀ i v, (i, v) ∈ outlierEntriesAll cells
        (lowerFence (numericValues cells)) (upperFence (numericValues cells)) ↔
      1 ≤ i ∧ ∃ c, cells[i-1]? = some c ∧ toNumeric c = some v ∧
        (v < lowerFence (numericValues cells) ∨
          upperFence (numericValues cells) < v)) ∧
    (detect_outliers cells).rows = ((outlierEntriesAll cells
        (lowerFence (numericValues cells))
        (upperFence (numericValues cells))).take 5).map
        (fun p => (p.1, round1 p.2)) ∧
    (detect_outliers cells).total = (outlierEntriesAll cells
        (lowerFence (numericValues cells))
        (upperFence (numericValues cells))).length ∧
    (detect_outliers cells).thresholds =
      some (round1 (lowerFence (numericValues cells)),
        round1 (upperFence (numericValues cells))) := by
  have hne : numericValues cells ≠ [] := by
    intro hcon
    rw [hcon] at h4
    simp at h4
  have hq13 : q1Of (numericValues cells) ≤ q3Of (numericValues cells) :=
    quantileOf_mono hne (by norm_num) (by norm_num) (by norm_num)
  have hiqr : 0 ≤ iqrOf (numericValues cells) := by
    unfold iqrOf
    linarith
  have hdet : detect_outliers cells = ⟨((outlierEntriesAll cells
      (lowerFence (numericValues cells))
      (upperFence (numericValues cells))).take 5).map
      (fun p => (p.1, round1 p.2)),
      (outlierEntriesAll cells (lowerFence (numericValues cells))
        (upperFence (numericValues cells))).length,
      some (round1 (lowerFence (numericValues cells)),
        round1 (upperFence (numericValues cells)))⟩ := by
    unfold detect_outliers
    rw [if_neg (not_lt.mpr h4)]
  refine ⟨?_, ?_, ?_, ?_, ?_, ?_, ?_, ?_⟩
  · unfold lowerFence
    linarith
  · exact quantileOf_mono hne (by norm_num) (by norm_num) (by norm_num)
  · exact quantileOf_mono hne (by norm_num) (by norm_num) (by norm_num)
  · unfold upperFence
    linarith
  · intro i v
    exact mem_outlierEntriesAll cells _ _ i v
  · rw [hdet]
  · rw [hdet]
  · rw [hdet]

/-- Witness for C5 at the concrete column 1, 2, 2, 3, 100: five numeric
values, `total` counts the single outlier 100 and the rounded thresholds
are reported. -/
theorem C5_witness :
    4 ≤ (numericValues exC5w).length ∧
    (detect_outliers exC5w).total = (outlierEntriesAll exC5w
      (lowerFence (numericValues exC5w)) (upperFence (numericValues exC5w))).length ∧
    (detect_outliers exC5w).thresholds =
      some (round1 (lowerFence (numericValues exC5w)),
        round1 (upperFence (numericValues exC5w))) :=
  ⟨by with_unfolding_all decide,
    (C5_outliers exC5w (by with_unfolding_all decide)).2.2.2.2.2.2.1,
    (C5_outliers exC5w (by with_unfolding_all decide)).2.2.2.2.2.2.2⟩

theorem list_sum_range (f : ℕ → ℕ) (k : ℕ) :
    ((List.range k).map f).sum = ∑ i ∈ Finset.range k, f i := by
  induction k with
  | zero => simp
  | succ m ih =>
    rw [List.range_succ, List.map_append, List.sum_append, Finset.sum_range_succ, ih]
    simp

theorem sum_countP_bins (l : List ℚ) (f : ℚ → ℕ) (k : ℕ)
    (hf : ∀ v ∈ l, f v < k) :
    ∑ i ∈ Finset.range k, l.countP (fun v => decide (f v = i)) = l.length := by
  induction l with
  | nil => simp
  | cons a t ih =>
    have ha : f a < k := hf a (List.mem_cons_self a t)
    have ht : ∀ v ∈ t, f v < k := fun v hv => hf v (List.mem_cons_of_mem a hv)
    simp only [List.countP_cons, List.length_cons]
    rw [Finset.sum_add_distrib, ih ht]
    congr 1
    have hsw : ∀ i, (if (decide (f a = i)) = true then 1 else 0) =
        if f a = i then 1 else 0 := by
      intro i
      by_cases h : f a = i <;> simp [h]
    rw [Finset.sum_congr rfl (fun i _ => hsw i), Finset.sum_ite_eq]
    simp [Finset.mem_range.mpr ha]

theorem binIdx_lt (lo hi : ℚ) {k : ℕ} (hk : 1 ≤ k) (v : ℚ) :
    binIdx lo hi k v < k := by
  unfold binIdx
  have := min_le_right (⌊(v - lo) * k / (hi - lo)⌋.toNat) (k - 1)
  omega

theorem histCounts_sum (l : List ℚ) {k : ℕ} (hk : 1 ≤ k) :
    (histCounts l k).sum = l.length := by
  unfold histCounts
  rw [list_sum_range]
  exact sum_countP_bins l _ k (fun v _ => binIdx_lt _ _ hk v)

theorem nBins_pos (l : List ℚ) (h2 : 2 ≤ l.length) : 1 ≤ nBins l := by
  unfold nBins
  split
  · omega
  · have hs : 1 ≤ Nat.sqrt l.length := Nat.le_sqrt.mpr (by omega)
    omega

/-- Claim C6: with at least 2 numeric values and strictly positive IQR the
bin count is in `[5, 50]`, and any histogram produced has per-bin counts
summing to the number of numeric values (no value is dropped). -/
theorem C6_histogram (cells : List Cell)
    (h2 : 2 ≤ (numericValues cells).length) :
    (0 < iqrOf (numericValues cells) →
      5 ≤ nBins (numericValues cells) ∧ nBins (numericValues cells) ≤ 50) ∧
    ∀ h, histogram_data cells = some h →
      h.values.sum = (numericValues cells).length := by
  constructor
  · intro hiqr
    unfold nBins
    rw [if_pos hiqr]
    omega
  · intro h hh
    unfold histogram_data at hh
    rw [if_neg (not_lt.mpr h2)] at hh
    have hh' := Option.some_injective _ hh
    subst hh'
    exact histCounts_sum _ (nBins_pos _ h2)

/-- Witness for C6 at the column 1, 2, 2, 3 (IQR = 0.5 > 0). -/
theorem C6_witness :
    0 < iqrOf (numericValues exC6w) ∧
    5 ≤ nBins (numericValues exC6w) ∧ nBins (numericValues exC6w) ≤ 50 ∧
    (histCounts (numericValues exC6w) (nBins (numericValues exC6w))).sum =
      (numericValues exC6w).length := by
  have hiqr : 0 < iqrOf (numericValues exC6w) := by with_unfolding_all decide
  have h2 : 2 ≤ (numericValues exC6w).length := by with_unfolding_all decide
  have hsome : histogram_data exC6w = some
      { binRanges := binRangesOf (numericValues exC6w) (nBins (numericValues exC6w)),
        values := histCounts (numericValues exC6w) (nBins (numericValues exC6w)) } := by
    unfold histogram_data
    rw [if_neg (not_lt.mpr h2)]
  exact ⟨hiqr, ((C6_histogram exC6w h2).1 hiqr).1, ((C6_histogram exC6w h2).1 hiqr).2,
    (C6_histogram exC6w h2).2 _ hsome⟩

theorem numericValues_replicate (n : ℕ) (q : ℚ) :
    numericValues (List.replicate n (Cell.num q)) = List.replicate n q := by
  induction n with
  | zero => rfl
  | succ m ih =>
    rw [List.replicate_succ, List.replicate_succ]
    unfold numericValues at ih ⊢
    rw [List.filterMap_cons]
    simp only [toNumeric]
    rw [ih]

theorem sortAsc_replicate (n : ℕ) (a : ℚ) :
    sortAsc (List.replicate n a) = List.replicate n a := by
  apply List.mergeSort_of_sorted
  exact List.pairwise_replicate.mpr (Or.inr (by simp))

theorem interpAt_replicate (n : ℕ) (a : ℚ) (pos : ℚ) (hn : 1 ≤ n) :
    interpAt (List.replicate n a) pos = a := by
  have hlen : (List.replicate n a).length = n := List.length_replicate n a
  have hgd : ∀ i : ℕ, i < n → (List.replicate n a).getD i 0 = a := by
    intro i hi
    rw [List.getD_eq_getElem _ _ (by omega), List.getElem_replicate]
  have hi1 : idxAt (List.replicate n a).length pos < n := by
    unfold idxAt
    have := min_le_right (⌊pos⌋.toNat) ((List.replicate n a).length - 1)
    omega
  have hi2 : min (idxAt (List.replicate n a).length pos + 1)
      ((List.replicate n a).length - 1) < n := by
    have := min_le_right (idxAt (List.replicate n a).length pos + 1)
      ((List.replicate n a).length - 1)
    omega
  unfold interpAt
  rw [hgd _ hi1, hgd _ hi2]
  ring

theorem quantileOf_replicate (n : ℕ) (a : ℚ) (p : ℚ) (hn : 1 ≤ n) :
    quantileOf (List.replicate n a) p = a := by
  unfold quantileOf
  rw [if_neg (by simp [List.isEmpty_iff]; omega)]
  rw [sortAsc_replicate]
  exact interpAt_replicate n a _ hn

theorem iqrOf_replicate (n : ℕ) (a : ℚ) (hn : 1 ≤ n) :
    iqrOf (List.replicate n a) = 0 := by
  unfold iqrOf q3Of q1Of
  rw [quantileOf_replicate n a _ hn, quantileOf_replicate n a _ hn]
  ring

/-- Claim C7, as stated, is false at a column of 961 identical values:
IQR = 0 and `floor(sqrt(961)) = 31`, but the code caps the
square-root formula at 30 bins (`min(int(np.sqrt(n)), 30)`), while the
claim allows only the overall 50 cap and so predicts 31. -/
theorem C7_counterexample :
    nBins (numericValues exC7) = 30 ∧
    min (Nat.sqrt (numericValues exC7).length) 50 = 31 := by
  have hnum : numericValues exC7 = List.replicate 961 (7:ℚ) :=
    numericValues_replicate 961 7
  have hsq : Nat.sqrt 961 = 31 := by
    rw [show (961:ℕ) = 31 * 31 from rfl]
    exact Nat.sqrt_eq 31
  constructor
  · unfold nBins
    rw [hnum, iqrOf_replicate 961 7 (by omega)]
    rw [if_neg (lt_irrefl 0)]
    rw [List.length_replicate, hsq]
    omega
  · rw [hnum, List.length_replicate, hsq]
    omega

/-- Claim C7 (amended): with at least 2 numeric values and IQR = 0 the
bin count is `min(floor(sqrt(n)), 30)` — the square-root branch carries
its own cap of 30, which makes the final 50 cap vacuous there. -/
theorem C7_amended (cells : List Cell)
    (h2 : 2 ≤ (numericValues cells).length)
    (hiqr : iqrOf (numericValues cells) = 0) :
    nBins (numericValues cells) =
      min (Nat.sqrt (numericValues cells).length) 30 := by
  unfold nBins
  rw [hiqr, if_neg (lt_irrefl 0)]
  omega

/-- Witness for C7_amended at the 961-value constant column: 30 bins. -/
theorem C7_witness :
    iqrOf (numericValues exC7) = 0 ∧
    nBins (numericValues exC7) = min (Nat.sqrt (numericValues exC7).length) 30 := by
  have hnum : numericValues exC7 = List.replicate 961 (7:ℚ) :=
    numericValues_replicate 961 7
  have hiqr : iqrOf (numericValues exC7) = 0 := by
    rw [hnum]
    exact iqrOf_replicate 961 7 (by omega)
  have h2 : 2 ≤ (numericValues exC7).length := by
    rw [hnum, List.length_replicate]
    omega
  exact ⟨hiqr, C7_amended exC7 h2 hiqr⟩

/-- Claim C8, as stated, is false at the concrete 3-value numeric column
1, 2, 3: outliers and boxplot are empty and stats are populated, but the
histogram is NOT empty — its minimum is 2 values, which 3 rows satisfy. -/
theorem C8_counterexample :
    detect_outliers exC8 = ⟨[], 0, none⟩ ∧
    boxplot_data exC8 = none ∧
    (numericStats exC8).isSome = true ∧
    histogram_data exC8 ≠ none := by
  refine ⟨?_, ?_, ?_, ?_⟩
  · unfold detect_outliers
    rw [if_pos (by decide)]
  · unfold boxplot_data
    rw [if_pos (by decide)]
  · unfold numericStats
    rw [if_pos (by decide)]
    rfl
  · unfold histogram_data
    rw [if_neg (by decide)]
    simp

/-- Claim C8 (amended): for a column with exactly 3 numeric values,
outliers and boxplot are empty (their minimum is 4), stats are populated
(minimum 1), and the histogram is produced (its minimum is 2, not 4). -/
theorem C8_amended (cells : List Cell)
    (h3 : (numericValues cells).length = 3) :
    detect_outliers cells = ⟨[], 0, none⟩ ∧
    boxplot_data cells = none ∧
    (numericStats cells).isSome = true ∧
    (histogram_data cells).isSome = true := by
  refine ⟨?_, ?_, ?_, ?_⟩
  · unfold detect_outliers
    rw [if_pos (by omega)]
  · unfold boxplot_data
    rw [if_pos (by omega)]
  · unfold numericStats
    rw [if_pos (by omega)]
    rfl
  · unfold histogram_data
    rw [if_neg (by omega)]
    rfl

/-- Witness for C8_amended at the column 1, 2, 3. -/
theorem C8_witness :
    (numericValues exC8).length = 3 ∧
    boxplot_data exC8 = none ∧
    (histogram_data exC8).isSome = true :=
  ⟨by decide, (C8_amended exC8 (by decide)).2.1, (C8_amended exC8 (by decide)).2.2.2⟩

theorem pairedVals_swap (xs ys : List (Option ℚ)) :
    pairedVals ys xs = (pairedVals xs ys).map fun p => (p.2, p.1) := by
  induction xs generalizing ys with
  | nil => cases ys <;> simp [pairedVals]
  | cons a t ih =>
    cases ys with
    | nil => simp [pairedVals]
    | cons b u =>
      unfold pairedVals
      rw [List.zip_cons_cons, List.filterMap_cons, List.zip_cons_cons,
        List.filterMap_cons]
      have ihs := ih u
      unfold pairedVals at ihs
      cases a <;> cases b <;> simp [ihs]

theorem sxyOf_swap (ps : List (ℚ × ℚ)) :
    sxyOf (ps.map fun p => (p.2, p.1)) = sxyOf ps := by
  unfold sxyOf
  rw [List.map_map, List.map_map, List.map_map]
  have h1 : (Prod.fst ∘ fun p : ℚ × ℚ => (p.2, p.1)) = Prod.snd := rfl
  have h2 : (Prod.snd ∘ fun p : ℚ × ℚ => (p.2, p.1)) = Prod.fst := rfl
  rw [h1, h2]
  congr 1
  apply List.map_congr_left
  intro p _
  dsimp
  ring

theorem sxxOf_swap (ps : List (ℚ × ℚ)) :
    sxxOf (ps.map fun p => (p.2, p.1)) = syyOf ps := by
  unfold sxxOf syyOf
  rw [List.map_map, List.map_map]
  have h1 : (Prod.fst ∘ fun p : ℚ × ℚ => (p.2, p.1)) = Prod.snd := rfl
  rw [h1]
  congr 1

theorem syyOf_swap (ps : List (ℚ × ℚ)) :
    syyOf (ps.map fun p => (p.2, p.1)) = sxxOf ps := by
  unfold sxxOf syyOf
  rw [List.map_map, List.map_map]
  have h2 : (Prod.snd ∘ fun p : ℚ × ℚ => (p.2, p.1)) = Prod.fst := rfl
  rw [h2]
  congr 1

theorem pearson_symm (xs ys : List (Option ℚ)) :
    pearson ys xs = pearson xs ys := by
  unfold pearson
  rw [pairedVals_swap, sxyOf_swap, sxxOf_swap, syyOf_swap, mul_comm]

theorem pairedVals_self (c : List (Option ℚ)) :
    pairedVals c c = (c.filterMap id).map fun a => (a, a) := by
  induction c with
  | nil => rfl
  | cons a t ih =>
    unfold pairedVals at ih ⊢
    rw [List.zip_cons_cons, List.filterMap_cons, List.filterMap_cons]
    cases a <;> simp [ih]

theorem sxxOf_nonneg (ps : List (ℚ × ℚ)) : 0 ≤ sxxOf ps := by
  unfold sxxOf
  apply List.sum_nonneg
  intro x hx
  rw [List.mem_map] at hx
  obtain ⟨p, _, hp⟩ := hx
  rw [← hp]
  positivity

theorem diag_fst (l : List ℚ) : ((l.map fun a => (a, a)).map Prod.fst) = l := by
  induction l with
  | nil => rfl
  | cons a t ih =>
    simp only [List.map_cons]
    rw [ih]

theorem diag_snd (l : List ℚ) : ((l.map fun a => (a, a)).map Prod.snd) = l := by
  induction l with
  | nil => rfl
  | cons a t ih =>
    simp only [List.map_cons]
    rw [ih]

theorem diag_sxy (l : List ℚ) :
    sxyOf (l.map fun a => (a, a)) = sxxOf (l.map fun a => (a, a)) := by
  unfold sxyOf sxxOf
  rw [diag_fst l, diag_snd l]
  congr 1
  apply List.map_congr_left
  intro p hp
  rw [List.mem_map] at hp
  obtain ⟨a, _, rfl⟩ := hp
  dsimp
  ring

theorem diag_syy (l : List ℚ) :
    syyOf (l.map fun a => (a, a)) = sxxOf (l.map fun a => (a, a)) := by
  unfold syyOf sxxOf
  rw [diag_fst l, diag_snd l]
  congr 1
  apply List.map_congr_left
  intro p hp
  rw [List.mem_map] at hp
  obtain ⟨a, _, rfl⟩ := hp
  dsimp

theorem pearson_self (c : List (Option ℚ))
    (h : sxxOf (pairedVals c c) ≠ 0) : pearson c c = 1 := by
  unfold pearson
  rw [pairedVals_self] at h ⊢
  rw [diag_sxy, diag_syy]
  have hS0 : (0:ℝ) ≤ ((sxxOf ((c.filterMap id).map fun a => (a, a)) : ℚ) : ℝ) := by
    exact_mod_cast sxxOf_nonneg _
  rw [Real.mul_self_sqrt hS0]
  apply div_self
  exact_mod_cast h

theorem round2R_one : round2R 1 = 1 := by
  unfold round2R pyRoundR
  rw [show (1:ℝ) * 100 = ((100:ℤ) : ℝ) by norm_num]
  rw [Int.floor_intCast]
  norm_num

theorem getD_range_map {α : Type} (k i : ℕ) (f : ℕ → α) (d : α) (h : i < k) :
    ((List.range k).map f).getD i d = f i := by
  rw [List.getD_eq_getElem _ _ (by simpa using h)]
  simp

/-- Claim C4: the correlation block is empty when fewer than two columns
are classified Numerical; when it is emitted, the matrix (each cell the
Pearson value rounded to 2 decimals) is symmetric, and every diagonal
cell of a column with nonzero variance equals 1.0. -/
theorem C4_correlation (t : Table) (entries : List ColEntry) :
    ((numericNames entries).length < 2 → correlationBlock t entries = none) ∧
    (∀ M, correlationBlock t entries = some M →
      (∀ i j, i < (numericNames entries).length →
        j < (numericNames entries).length → matAt M i j = matAt M j i) ∧
      (∀ i, i < (numericNames entries).length →
        sxxOf (pairedVals (colCells t ((numericNames entries).getD i ""))
          (colCells t ((numericNames entries).getD i ""))) ≠ 0 →
        matAt M i i = 1)) := by
  constructor
  · intro h
    unfold correlationBlock
    rw [if_neg (by omega)]
  · intro M hM
    unfold correlationBlock at hM
    by_cases h2 : 2 ≤ (numericNames entries).length
    · rw [if_pos h2] at hM
      have hM' := Option.some_injective _ hM
      subst hM'
      constructor
      · intro i j hi hj
        unfold matAt mkCorr
        dsimp only
        rw [getD_range_map _ _ _ _ hi, getD_range_map _ _ _ _ hj,
          getD_range_map _ _ _ _ hj, getD_range_map _ _ _ _ hi]
        rw [pearson_symm]
      · intro i hi hS
        unfold matAt mkCorr
        dsimp only
        rw [getD_range_map _ _ _ _ hi, getD_range_map _ _ _ _ hi]
        rw [pearson_self _ hS, round2R_one]
    · rw [if_neg h2] at hM
      exact absurd hM (by simp)

/-- Witness for C4: on a two-numeric-column table the block is emitted,
the (0,1)/(1,0) cells agree and the (0,0) diagonal is 1; with a single
Numerical entry the block is empty. -/
theorem C4_witness :
    correlationBlock exT4 exE4one = none ∧
    matAt (mkCorr exT4 (numericNames exE4)) 0 1 =
      matAt (mkCorr exT4 (numericNames exE4)) 1 0 ∧
    matAt (mkCorr exT4 (numericNames exE4)) 0 0 = 1 := by
  have h2 : 2 ≤ (numericNames exE4).length := by decide
  have hsome : correlationBlock exT4 exE4 = some (mkCorr exT4 (numericNames exE4)) := by
    unfold correlationBlock
    rw [if_pos h2]
  refine ⟨(C4_correlation exT4 exE4one).1 (by decide), ?_, ?_⟩
  · exact ((C4_correlation exT4 exE4).2 _ hsome).1 0 1 (by decide) (by decide)
  · exact ((C4_correlation exT4 exE4).2 _ hsome).2 0 (by decide)
      (by with_unfolding_all decide)

/-- Claim C3: one analyzer failure never aborts the batch — every column
yields exactly one entry; a failing column yields the `Error` entry
carrying the exception message, and every other column's entry is
whatever its own analysis produced. -/
theorem C3_error_isolation (analyze : Column → Except String ColEntry)
    (cols : List Column) :
    (processColumns analyze cols).length = cols.length ∧
    ∀ i (hi : i < cols.length) (hi' : i < (processColumns analyze cols).length),
      (∀ m, analyze (cols.get ⟨i, hi⟩) = Except.error m →
        ((processColumns analyze cols).get ⟨i, hi'⟩).category = "Error" ∧
        ((processColumns analyze cols).get ⟨i, hi'⟩).errorMsg = some m ∧
        (processColumns analyze cols).get ⟨i, hi'⟩ =
          errorEntry (cols.get ⟨i, hi⟩).name (cols.get ⟨i, hi⟩).dtype m) ∧
      (∀ e, analyze (cols.get ⟨i, hi⟩) = Except.ok e →
        (processColumns analyze cols).get ⟨i, hi'⟩ = e) := by
  refine ⟨List.length_map _ _, ?_⟩
  intro i hi hi'
  have hget : (processColumns analyze cols).get ⟨i, hi'⟩ =
      match analyze (cols.get ⟨i, hi⟩) with
      | Except.ok e => e
      | Except.error m =>
          errorEntry (cols.get ⟨i, hi⟩).name (cols.get ⟨i, hi⟩).dtype m := by
    unfold processColumns
    rw [List.get_map]
  constructor
  · intro m hm
    rw [hget, hm]
    exact ⟨rfl, rfl, rfl⟩
  · intro e he
    rw [hget, he]

/-- Witness for C3: of three columns the middle one fails; it is emitted
as `Error` with its message while the others keep their own entries. -/
theorem C3_witness :
    (processColumns exAnalyze3 exCols3).length = 3 ∧
    ((processColumns exAnalyze3 exCols3).get ⟨1, by decide⟩).category = "Error" ∧
    ((processColumns exAnalyze3 exCols3).get ⟨1, by decide⟩).errorMsg = some "boom" ∧
    (processColumns exAnalyze3 exCols3).get ⟨2, by decide⟩ =
      plainEntry "b" "float64" := by
  have h := C3_error_isolation exAnalyze3 exCols3
  refine ⟨h.1, ?_, ?_, ?_⟩
  · exact ((h.2 1 (by decide) (by decide)).1 "boom" rfl).1
  · exact ((h.2 1 (by decide) (by decide)).1 "boom" rfl).2.1
  · exact (h.2 2 (by decide) (by decide)).2 (plainEntry "b" "float64") rfl

/-- Claim C10: the `Error` entry always hard-codes `unique = 0`,
`missing = 0` and `quality = 0`, whatever the failing column actually
contains. -/
theorem C10_error_zeros (analyze : Column → Except String ColEntry)
    (cols : List Column) (i : ℕ) (hi : i < cols.length)
    (hi' : i < (processColumns analyze cols).length) (m : String)
    (hm : analyze (cols.get ⟨i, hi⟩) = Except.error m) :
    ((processColumns analyze cols).get ⟨i, hi'⟩).unique = 0 ∧
    ((processColumns analyze cols).get ⟨i, hi'⟩).missing = 0 ∧
    ((processColumns analyze cols).get ⟨i, hi'⟩).quality = 0 := by
  have hget : (processColumns analyze cols).get ⟨i, hi'⟩ =
      match analyze (cols.get ⟨i, hi⟩) with
      | Except.ok e => e
      | Except.error m =>
          errorEntry (cols.get ⟨i, hi⟩).name (cols.get ⟨i, hi⟩).dtype m := by
    unfold processColumns
    rw [List.get_map]
  rw [hget, hm]
  exact ⟨rfl, rfl, rfl⟩

/-- Witness for C10: the failing column really holds 1 missing cell and
1 distinct value, yet its `Error` entry reports all three fields as 0. -/
theorem C10_witness :
    missingOf (Cell.num 1 :: Cell.missing :: [Cell.num 1]) = 1 ∧
    uniqueOf (Cell.num 1 :: Cell.missing :: [Cell.num 1]) = 1 ∧
    ((processColumns exAnalyze10 exCols10).get ⟨0, by decide⟩).unique = 0 ∧
    ((processColumns exAnalyze10 exCols10).get ⟨0, by decide⟩).missing = 0 ∧
    ((processColumns exAnalyze10 exCols10).get ⟨0, by decide⟩).quality = 0 := by
  have h := C10_error_zeros exAnalyze10 exCols10 0 (by decide) (by decide) "oops" rfl
  exact ⟨by decide, by decide, h.1, h.2.1, h.2.2⟩

/-- Claim C9: profiling is a pure function of the table and the date
oracle — two runs on the same input produce identical profile results. -/
theorem C9_deterministic (o : DateOracle) (t : Table) :
    analyse_table o t = analyse_table o t := rfl

end DataAnalyser
